import Mathlib

set_option maxRecDepth 100000
set_option synthInstance.maxSize 2000

/-!
Verification of the QR-code encoder (src/qr.rs).

This file gives a shallow embedding of the symbol-construction pipeline of the
repository: version selection, header/payload packing (`QR::new`), the reserved
pattern placer (`QR::place_reserved_areas`), the zig-zag data placer
(`QR::place_modules`), the mask application and the format-information overlay
(`QR::mask_and_format`, `QR::generate_format_pattern`) and the mask selection
step (`QR::evaluate_masks`).  Cells hold the raw sentinel values the Rust code
uses: 0/1 maskable light/dark data, 10/11 reserved light/dark, 2 reserved
format cell, 3 uninitialised.

Machine integers are modelled by `Nat` (bytes are values below 256; `usize`
wrap-around is made explicit where it can occur).  Fallible operations
(out-of-bounds indexing panics, the non-terminating loop) are modelled with
`Option`.
-/

namespace QR

/-! ## Version selection and data encoding (`QR::new`, qr.rs lines 21-95) -/

/-- Capacity table for versions 1-10 at Q error correction level (qr.rs line 23). -/
def capacityTable : List Nat := [11, 20, 32, 46, 60, 74, 86, 108, 130, 151]

/-- Version selection loop of `QR::new` (qr.rs lines 24-31): `version` starts
at 0 and the loop breaks at the first `v` with `capacity_table[v] > input.len()`,
setting `version = v + 1`.  If no entry is larger than the length, `version`
keeps its initial value 0. -/
def selectVersion (len : Nat) : Nat :=
  match (List.range capacityTable.length).find?
      (fun v => decide (len < capacityTable.getD v 0)) with
  | some v => v + 1
  | none => 0

/-- Table of data-codeword counts per version at level Q (qr.rs line 57). -/
def ecTable : List Nat := [13, 22, 34, 48, 62, 76, 88, 110, 132, 154]

/-- Number of values of `usize`. -/
def USIZE : Nat := 2 ^ 64

/-- The lookup `ec_table[version - 1]` (qr.rs line 60).  `version` is a `usize`,
so `version - 1` wraps around for `version = 0` (in release mode), making the
index huge and the indexing panic; a panic is modelled as `none`. -/
def ecTotalBytes (version : Nat) : Option Nat :=
  ecTable.get? ((version + (USIZE - 1)) % USIZE)

/-- The byte stream `[mode_nibble=4][length_field][message...]` built at
qr.rs lines 41-54.  The length field is the message length cast to `u8`
(one byte) for versions below 10, to `u16` (two bytes) otherwise. -/
def headerData (msg : List Nat) (version : Nat) : List Nat :=
  if version < 10 then 4 :: msg.length % 256 :: msg
  else 4 :: msg.length / 256 % 256 :: msg.length % 256 :: msg

/-- Nibble alignment loop (qr.rs lines 65-72): each output byte is the low
nibble of the current byte shifted into the high position (`(b & 0xF) << 4`,
written `b % 16 * 16`) plus the high nibble of the following byte
(`b >> 4`, written `b / 16`); the last byte has no successor.
`checked_shl(4)` on a `u8` below 16 never overflows. -/
def alignData (data : List Nat) : List Nat :=
  (List.range data.length).map fun i =>
    if i = data.length - 1 then data.getD i 0 % 16 * 16
    else data.getD i 0 % 16 * 16 + data.getD (i + 1) 0 / 16

/-- The padding bytes appended at qr.rs lines 77-83: alternating `236` (0xEC)
and `17` (0x11), starting with `236`. -/
def paddingList (n : Nat) : List Nat :=
  (List.range n).map fun i => if i % 2 = 0 then 236 else 17

/-- Padding step of `QR::new` (qr.rs lines 75-83): append alternating padding
bytes until the length reaches `total`.  For every message that reaches this
point the aligned data is shorter than `total`, so the `usize` subtraction
computing the padding count does not underflow and `Nat` subtraction is
faithful. -/
def padTo (total : Nat) (xs : List Nat) : List Nat :=
  xs ++ paddingList (total - xs.length)

/-- The fields of the `QR` struct that the data encoder fills in. -/
structure QRState where
  size : Nat
  version : Nat
  data : List Nat
deriving Repr, DecidableEq

/-- Result of running `QR::new`: the `exit(0)` at qr.rs line 35 after the
"Message is too long!" report, a panic (out-of-bounds indexing), or the
constructed state. -/
inductive QRResult where
  | tooLong
  | panic
  | ok (q : QRState)
deriving Repr, DecidableEq

/-- `QR::new` (qr.rs lines 21-95): select the version, reject with the
"too long" exit when `version > 2`, look `ec_table[version - 1]` up (a panic
for `version = 0`), build the nibble-aligned padded data and the struct with
`size = (version - 1) * 4 + 21`. -/
def qrNew (msg : List Nat) : QRResult :=
  let version := selectVersion msg.length
  if version > 2 then .tooLong
  else
    match ecTotalBytes version with
    | none => .panic
    | some totalBytes =>
        .ok { size := (version - 1) * 4 + 21
              version := version
              data := padTo totalBytes (alignData (headerData msg version)) }

/-! ## The module grid (`Array2D<u8>`)

A grid is a list of rows; `image[(y, x)]` is row `y`, column `x`.  Reads and
writes inside the placement code are in bounds; `writeCell` leaves the grid
unchanged out of bounds and `readCell` returns `none` (an out-of-bounds
`Array2D` access panics, which the zig-zag model surfaces as `none`). -/

abbrev Grid := List (List Nat)

def readCell (g : Grid) (y x : Nat) : Option Nat :=
  (g.get? y).bind fun row => row.get? x

def readCellD (g : Grid) (y x : Nat) : Nat := (readCell g y x).getD 0

def writeCell (g : Grid) (y x v : Nat) : Grid :=
  match g.get? y with
  | some row => g.set y (row.set x v)
  | none => g

/-- `RawImage::filled_with(v, size, size)`. -/
def gridFilled (v size : Nat) : Grid := List.replicate size (List.replicate size v)

/-- Helper `QR::get_bit` (qr.rs lines 142-144): `(value >> offset) & 1`. -/
def getBit (offset value : Nat) : Nat := (value >>> offset) &&& 1

/-! ## Reserved-pattern placer (`QR::place_reserved_areas`, qr.rs 146-238) -/

/-- Cell value of the 7×7 finder pattern at row offset `j`, column offset `k`
(qr.rs lines 122-137). -/
def finderVal (j k : Nat) : Nat :=
  if k = 0 ∨ k = 6 then 11
  else if k = 1 ∨ k = 5 then (if j = 0 ∨ j = 6 then 11 else 10)
  else (if j = 1 ∨ j = 5 then 10 else 11)

/-- `QR::create_finder_pattern(x, y)` (qr.rs lines 118-139): writes the 7×7
pattern at `image[(j + x, k + y)]` for `k, j` in `0..7`. -/
def createFinderPattern (x y : Nat) (g : Grid) : Grid :=
  (List.range 7).foldl (fun g k =>
    (List.range 7).foldl (fun g j => writeCell g (j + x) (k + y) (finderVal j k)) g) g

/-- The three finder placements at the start of `place_reserved_areas`
(qr.rs lines 149-151). -/
def placeFinders (size : Nat) (g : Grid) : Grid :=
  createFinderPattern 0 (size - 7) (createFinderPattern (size - 7) 0
    (createFinderPattern 0 0 g))

/-- Separator part of the loop body (qr.rs lines 159-178): when the current
cell holds 11, its four diagonal neighbours (`k, j` ranging over `[-1, 1]`)
are marked 10 when inside the grid and still uninitialised (3). -/
def sepStep (size : Nat) (g : Grid) (y x : Nat) : Grid :=
  if readCellD g y x = 11 then
    ([-1, 1] : List Int).foldl (fun g k =>
      ([-1, 1] : List Int).foldl (fun g j =>
        let xo := (x : Int) + j
        let yo := (y : Int) + k
        if 0 ≤ xo ∧ 0 ≤ yo ∧ xo < (size : Int) ∧ yo < (size : Int) then
          if readCellD g yo.toNat xo.toNat = 3 then
            writeCell g yo.toNat xo.toNat 10
          else g
        else g) g) g
  else g

/-- Format-reservation part of the loop body (qr.rs lines 182-190): column 8
for rows `< 9` or `> size - 9`, else row 8 for columns `< 9` or `> size - 9`,
marked 2. -/
def formatZoneStep (size : Nat) (g : Grid) (y x : Nat) : Grid :=
  if x = 8 then (if y < 9 ∨ y > size - 9 then writeCell g y x 2 else g)
  else if y = 8 then (if x < 9 ∨ x > size - 9 then writeCell g y x 2 else g)
  else g

/-- The separator / format-reservation double loop (qr.rs lines 155-192). -/
def sepFormatLoop (size : Nat) (g : Grid) : Grid :=
  (List.range size).foldl (fun g y =>
    (List.range size).foldl (fun g x =>
      formatZoneStep size (sepStep size g y x) y x) g) g

/-- Cell value of the 5×5 alignment pattern (qr.rs lines 199-214). -/
def alignmentVal (y x : Nat) : Nat :=
  if y = 0 ∨ y = 4 then 11
  else if y = 1 ∨ y = 3 then (if x = 0 ∨ x = 4 then 11 else 10)
  else (if x = 1 ∨ x = 3 then 10 else 11)

/-- Alignment-pattern placement (qr.rs lines 196-216): only for version > 1,
anchored at `start = size - 9`. -/
def placeAlignment (version size : Nat) (g : Grid) : Grid :=
  if version > 1 then
    (List.range 5).foldl (fun g y =>
      (List.range 5).foldl (fun g x =>
        writeCell g (y + (size - 9)) (x + (size - 9)) (alignmentVal y x)) g) g
  else g

/-- Timing patterns (qr.rs lines 219-234): alternating 11/10 along column 6
and row 6 for indices in `8..(size - 7)`. -/
def placeTiming (size : Nat) (g : Grid) : Grid :=
  let g := (List.range' 8 (size - 15)).foldl
    (fun g y => writeCell g y 6 (if y % 2 = 0 then 11 else 10)) g
  (List.range' 8 (size - 15)).foldl
    (fun g x => writeCell g 6 x (if x % 2 = 0 then 11 else 10)) g

/-- `QR::place_reserved_areas` (qr.rs lines 147-238): finders, separators and
format zones, alignment, timing, and the dark module at
`(4 * version + 9, 8)`. -/
def placeReservedAreas (version size : Nat) (g : Grid) : Grid :=
  writeCell
    (placeTiming size (placeAlignment version size (sepFormatLoop size
      (placeFinders size g))))
    (4 * version + 9) 8 11

/-! ## Zig-zag data placer (`QR::place_modules`, qr.rs 247-317) -/

/-- Reading `image[(y, x)]` with `isize` coordinates cast with `as usize`
(qr.rs line 267): a negative coordinate becomes a huge index, so the access
panics; panics are `none`. -/
def readCellI (g : Grid) (y x : Int) : Option Nat :=
  if y < 0 ∨ x < 0 then none else readCell g y.toNat x.toNat

/-- One advancement of the zig-zag cursor (qr.rs lines 280-306): step `x` by
`x_step`; flip `x_step`, dropping `y` by `y_step` every second horizontal
step; on leaving the top or bottom edge reverse `y_step`, clamp `y` back
inside, and move two columns left — jumping to column 5 from column 8 to skip
the vertical timing column entirely. -/
def zigzagAdvance (size : Nat) (x y xs ys : Int) : Int × Int × Int × Int :=
  let x := x + xs
  let p := if xs = -1 then ((1 : Int), y) else (-1, y + ys)
  let xs := p.1
  let y := p.2
  if (y = -1 ∨ y = (size : Int)) ∧ xs = -1 then
    let q := if ys = -1 then ((1 : Int), (0 : Int)) else (-1, (size : Int) - 1)
    let x := if x = 8 then (5 : Int) else x - 2
    (x, q.2, xs, q.1)
  else (x, y, xs, ys)

/-- The `while bit_index < total_bits` loop of `place_modules`
(qr.rs lines 265-307), with an explicit fuel bound on the number of
iterations.  Each visited cell that is still uninitialised (3) receives the
next payload bit, most-significant bit of each byte first
(`bit = 7 - bit_index % 8`); other cells are skipped without consuming a bit.
The result is `none` when a grid access leaves the grid (a panic in the code)
or when the fuel runs out before all bits are consumed. -/
def zigzagLoop (size : Nat) (payload : List Nat) (tb : Nat) :
    Nat → Grid → Nat → Int → Int → Int → Int → Option Grid
  | 0, _, _, _, _, _, _ => none
  | fuel + 1, g, bi, x, y, xs, ys =>
    if bi < tb then
      match readCellI g y x with
      | none => none
      | some v =>
        let g2 := if v = 3 then
            writeCell g y.toNat x.toNat
              (getBit (7 - bi % 8) (payload.getD (bi / 8) 0))
          else g
        let bi2 := if v = 3 then bi + 1 else bi
        let a := zigzagAdvance size x y xs ys
        zigzagLoop size payload tb fuel g2 bi2 a.1 a.2.1 a.2.2.1 a.2.2.2
    else some g

/-- Leftover pass (qr.rs lines 310-316): every cell still uninitialised (3)
becomes maskable light (0). -/
def leftoverPass (g : Grid) : Grid :=
  g.map fun row => row.map fun v => if v = 3 then 0 else v

/-- `QR::place_modules` (qr.rs lines 247-317): fill the grid with 3, place the
reserved areas, thread `payload.length * 8` bits along the zig-zag path
starting at the bottom-right corner with both steps `-1`, then run the
leftover pass. -/
def placeModules (version size fuel : Nat) (payload : List Nat) : Option Grid :=
  (zigzagLoop size payload (payload.length * 8) fuel
      (placeReservedAreas version size (gridFilled 3 size))
      0 ((size : Int) - 1) ((size : Int) - 1) (-1) (-1)).map leftoverPass

/-! ## Masking and format overlay (`QR::mask_and_format`, qr.rs 516-587) -/

/-- `QR::flip` (qr.rs lines 334-340): flips 0 to 1 and 1 to 0, all other
values are left alone. -/
def flipVal (v : Nat) : Nat := if v = 1 then 0 else if v = 0 then 1 else v

/-- The reversion step of `mask_and_format` (qr.rs lines 565-571): reserved
sentinels 10/11 become the final module values 0/1. -/
def revertVal (v : Nat) : Nat := if v = 10 then 0 else if v = 11 then 1 else v

/-- The eight mask predicates of `mask_and_format` (qr.rs lines 524-562). -/
def maskPred (m x y : Nat) : Bool :=
  match m with
  | 0 => (x + y) % 2 = 0
  | 1 => y % 2 = 0
  | 2 => x % 3 = 0
  | 3 => (x + y) % 3 = 0
  | 4 => (y / 2 + x / 3) % 2 = 0
  | 5 => x * y % 2 + x * y % 3 = 0
  | 6 => (x * y % 2 + x * y % 3) % 2 = 0
  | 7 => ((x + y) % 2 + x * y % 3) % 2 = 0
  | _ => false

/-- Row map carrying the column index. -/
def mapRowIdx (f : Nat → Nat → Nat) : Nat → List Nat → List Nat
  | _, [] => []
  | x, v :: r => f x v :: mapRowIdx f (x + 1) r

/-- Grid map carrying both indices (`f y x v`). -/
def mapGridIdx (f : Nat → Nat → Nat → Nat) : Nat → Grid → Grid
  | _, [] => []
  | y, row :: r => mapRowIdx (f y) 0 row :: mapGridIdx f (y + 1) r

/-- Per-cell effect of the masking loop of `mask_and_format` on candidate `m`
(qr.rs lines 522-573): flip the cell when the mask predicate holds at
`(x, y)`, then revert the 10/11 sentinels to 0/1.  The Rust loop runs over
cells and mutates all eight clones in place; each cell of each clone is
touched exactly once, so the per-grid map is the same function. -/
def maskRevertCell (m x y v : Nat) : Nat :=
  revertVal (if maskPred m x y then flipVal v else v)

/-- The full masking-and-reversion pass for candidate `m`. -/
def maskRevertGrid (m : Nat) (g : Grid) : Grid :=
  mapGridIdx (fun y x v => maskRevertCell m x y v) 0 g

/-- Format strings at Q level for each mask pattern (qr.rs line 345). -/
def formatStrings : List Nat :=
  [0x355F, 0x3068, 0x3F31, 0x3A06, 0x24B4, 0x2183, 0x2EDA, 0x2BED]

/-- Horizontal half of `QR::generate_format_pattern` (qr.rs lines 353-365):
scan row 8 left to right; each cell holding 2 receives
`get_bit(14 - horizontal_bit)` in the left half of the row and
`get_bit(15 - horizontal_bit)` in the right half, `horizontal_bit` counting
the cells written so far. -/
def horizontalPass (size fs : Nat) (g : Grid) : Grid :=
  ((List.range size).foldl (fun (p : Grid × Nat) x =>
    if readCellD p.1 8 x = 2 then
      (writeCell p.1 8 x
        (if x < size / 2 then getBit (14 - p.2) fs else getBit (15 - p.2) fs),
       p.2 + 1)
    else p) (g, 0)).1

/-- Vertical half of `QR::generate_format_pattern` (qr.rs lines 368-379):
scan column 8 top to bottom; each cell holding 2 receives
`get_bit(vertical_bit)`, and after writing, the counter is incremented twice
when it equals 7 ("Skip 7 as it's already placed") and once otherwise. -/
def verticalPass (size fs : Nat) (g : Grid) : Grid :=
  ((List.range size).foldl (fun (p : Grid × Nat) y =>
    if readCellD p.1 y 8 = 2 then
      (writeCell p.1 y 8 (getBit p.2 fs), if p.2 = 7 then p.2 + 2 else p.2 + 1)
    else p) (g, 0)).1

/-- `QR::generate_format_pattern` restricted to candidate `i`
(qr.rs lines 343-381). -/
def generateFormatPattern (size i : Nat) (g : Grid) : Grid :=
  verticalPass size (formatStrings.getD i 0) (horizontalPass size (formatStrings.getD i 0) g)

/-- The sequence of `vertical_bit` values used by `n` consecutive writes of
the vertical pass, starting from counter value `c` (qr.rs lines 370-377):
each write uses the current counter, which then advances by 2 from 7 and by
1 otherwise. -/
def verticalBitsAux : Nat → Nat → List Nat
  | 0, _ => []
  | n + 1, c => c :: verticalBitsAux n (if c = 7 then c + 2 else c + 1)

/-! ## Mask evaluation (`QR::evaluate_masks`, qr.rs 383-514) -/

/-- The selection step of `evaluate_masks` (qr.rs lines 504-513):
`penalties.iter().enumerate().min_by(...)` over the total penalties.  Rust's
`Iterator::min_by` keeps the current element on ties and replaces it only
when a later element is strictly smaller, so the first minimum wins;
`partial_cmp` on integers is total, so the `unwrap_or(Ordering::Equal)`
branch is never taken. -/
def minByFirst (ps : List Int) : Option (Nat × Int) :=
  ps.enum.foldl (fun acc p =>
    match acc with
    | none => some p
    | some q => if p.2 < q.2 then some p else some q) none

/-- `best_code_index`: the index of the chosen mask. -/
def bestCodeIndex (ps : List Int) : Option Nat := (minByFirst ps).map Prod.fst

/-! ## Error-correction adapter (`QR::generate_error_correction`, qr.rs 97-116) -/

/-- `blocks_table` (qr.rs line 100): per version, the number of error
correction codewords per block and the block counts of the two groups. -/
def blocksTable : List (Nat × Nat × Nat) := [(13, 1, 0), (22, 1, 0)]

/-- The error-correction codeword count handed to `Encoder::new`
(qr.rs line 102).  The Reed-Solomon codec itself is an external crate; per the
specification it returns exactly this many parity bytes, which
`generate_error_correction` appends to the data to form the payload. -/
def eccCodewords (version : Nat) : Nat := (blocksTable.getD (version - 1) (0, 0, 0)).1

/-! ## Relations for payload independence

The zig-zag placer inspects cells only through the test `cell == 3`, and the
bits it writes are always 0 or 1.  Two grids related cell-wise by "equal, or
both are final module values (< 2)" therefore stay related through the whole
pipeline, which transfers facts proved by evaluation on one concrete payload
to every payload of the same length. -/

def CellRel (a b : Nat) : Prop := a = b ∨ (a < 2 ∧ b < 2)

def OptRel (R : α → α → Prop) : Option α → Option α → Prop
  | none, none => True
  | some a, some b => R a b
  | _, _ => False

def RowRel : List Nat → List Nat → Prop := List.Forall₂ CellRel

def GridRel : Grid → Grid → Prop := List.Forall₂ RowRel

/-- The eight neighbour offsets of 8-connectivity (claim C5). -/
def neighborOffsets : List (Int × Int) :=
  [(-1, -1), (-1, 0), (-1, 1), (0, -1), (0, 1), (1, -1), (1, 0), (1, 1)]

/-- Evaluation harness for claim C10: run `place_modules` on a payload and
check that every cell of all eight masked-and-formatted candidate grids holds
a final module value (0 or 1). -/
def candidatesOk (version size fuel : Nat) (payload : List Nat) : Bool :=
  match placeModules version size fuel payload with
  | some g => (List.range 8).all fun m =>
      (generateFormatPattern size m (maskRevertGrid m g)).all fun row =>
        row.all fun v => v < 2
  | none => false

end QR

/-! ## Theorems for claims C1 and C2 -/

namespace QR

/-- Claim C1 (code bug): the claim says a message of length at most
`capacity(version 1) = 11` is encoded as a 21×21 grid and a message of length
in `(11, 20]` as a 25×25 grid.  The code tests `capacity_table[v] > len`
instead of `>=`, so an 11-byte message is encoded at version 2 (grid 25×25)
and a 20-byte message is rejected outright — even though the rejection message
itself says "Must be 20 characters or less".  This theorem evaluates the code
at both failing inputs (messages of 11 and of 20 bytes `97`). -/
theorem qrNew_capacity_off_by_one :
    (∃ q, qrNew (List.replicate 11 97) = .ok q ∧ q.size = 25 ∧ q.version = 2) ∧
    qrNew (List.replicate 20 97) = .tooLong := by
  exact ⟨⟨_, rfl, rfl, rfl⟩, rfl⟩

theorem selectVersion_lt {len v : Nat} (h : selectVersion len = v + 1) :
    len < capacityTable.getD v 0 := by
  unfold selectVersion at h
  cases h' : (List.range capacityTable.length).find?
      (fun v => decide (len < capacityTable.getD v 0)) with
  | none => simp only [h'] at h; omega
  | some w =>
      simp only [h'] at h
      have hw : w = v := by omega
      subst hw
      have hp := List.find?_some h'
      simpa using hp

theorem headerData_length {msg : List Nat} {v : Nat} (h : v < 10) :
    (headerData msg v).length = msg.length + 2 := by
  simp [headerData, h]

theorem alignData_length (d : List Nat) : (alignData d).length = d.length := by
  simp [alignData]

theorem paddingList_length (n : Nat) : (paddingList n).length = n := by
  simp [paddingList]

/-- Unfolding of a successful run of `QR::new`: the selected version is 1 or 2,
the grid side is `(version - 1) * 4 + 21` and the stored data is the aligned,
padded byte stream. -/
theorem qrNew_ok_spec {msg : List Nat} {q : QRState} (h : qrNew msg = .ok q) :
    ((q.version = 1 ∧ msg.length < 11) ∨ (q.version = 2 ∧ msg.length < 20)) ∧
    q.size = (q.version - 1) * 4 + 21 ∧
    q.data = padTo (ecTable.getD (q.version - 1) 0)
      (alignData (headerData msg q.version)) := by
  unfold qrNew at h
  by_cases h2 : selectVersion msg.length > 2
  · simp [h2] at h
  · simp only [h2, if_false] at h
    have hcases : selectVersion msg.length = 0 ∨ selectVersion msg.length = 1 ∨
        selectVersion msg.length = 2 := by omega
    rcases hcases with hv | hv | hv <;> rw [hv] at h
    · rw [show ecTotalBytes 0 = none from rfl] at h
      cases h
    · have hlen : msg.length < 11 := by
        have := selectVersion_lt (v := 0) hv
        simpa [capacityTable] using this
      rw [show ecTotalBytes 1 = some 13 from rfl] at h
      cases h
      exact ⟨Or.inl ⟨rfl, hlen⟩, rfl, rfl⟩
    · have hlen : msg.length < 20 := by
        have := selectVersion_lt (v := 1) hv
        simpa [capacityTable] using this
      rw [show ecTotalBytes 2 = some 22 from rfl] at h
      cases h
      exact ⟨Or.inr ⟨rfl, hlen⟩, rfl, rfl⟩

/-- Shared length facts about a successful `QR::new` run. -/
theorem qrNew_data_length {msg : List Nat} {q : QRState} (h : qrNew msg = .ok q) :
    (alignData (headerData msg q.version)).length = msg.length + 2 ∧
    msg.length + 2 ≤ ecTable.getD (q.version - 1) 0 ∧
    q.data.length = ecTable.getD (q.version - 1) 0 := by
  obtain ⟨hv, hsize, hdata⟩ := qrNew_ok_spec h
  have hv10 : q.version < 10 := by rcases hv with ⟨h1, _⟩ | ⟨h1, _⟩ <;> omega
  have hxlen : (alignData (headerData msg q.version)).length = msg.length + 2 := by
    rw [alignData_length, headerData_length hv10]
  have htot : msg.length + 2 ≤ ecTable.getD (q.version - 1) 0 := by
    rcases hv with ⟨h1, h2⟩ | ⟨h1, h2⟩
    · rw [h1]
      have h13 : ecTable.getD (1 - 1) 0 = 13 := rfl
      omega
    · rw [h1]
      have h22 : ecTable.getD (2 - 1) 0 = 22 := rfl
      omega
  refine ⟨hxlen, htot, ?_⟩
  rw [hdata]
  unfold padTo
  rw [List.length_append, paddingList_length, hxlen]
  omega

/-- Claim C4 (confirmed): for every accepted message the data-encoder output
handed to error correction has length exactly `total_codewords -
parity_codewords` for the selected version — 13 bytes for version 1, 22 for
version 2 — and the remainder after the nibble-packed header and message
(which occupy `msg.length + 2` bytes) is the padding sequence alternating
`0xEC, 0x11, 0xEC, ...` starting with `0xEC` (`paddingList`). -/
theorem encoder_output_exact (msg : List Nat) (q : QRState)
    (h : qrNew msg = .ok q) :
    q.data.length = ecTable.getD (q.version - 1) 0 ∧
    (q.version = 1 → q.data.length = 13) ∧
    (q.version = 2 → q.data.length = 22) ∧
    q.data.drop (msg.length + 2) =
      paddingList (ecTable.getD (q.version - 1) 0 - (msg.length + 2)) := by
  obtain ⟨hv, hsize, hdata⟩ := qrNew_ok_spec h
  obtain ⟨hxlen, htot, hlen⟩ := qrNew_data_length h
  refine ⟨hlen, ?_, ?_, ?_⟩
  · intro h1; rw [hlen, h1]; rfl
  · intro h1; rw [hlen, h1]; rfl
  · rw [hdata]
    unfold padTo
    rw [← hxlen, List.drop_left]

/-- Witness for C4: the one-byte message "A" (byte 65) is accepted at
version 1 and its encoder output has the 13 bytes
`[64, 20, 16, 236, 17, 236, 17, 236, 17, 236, 17, 236, 17]`. -/
theorem encoder_output_exact_witness :
    qrNew [65] =
      .ok ⟨21, 1, [64, 20, 16, 236, 17, 236, 17, 236, 17, 236, 17, 236, 17]⟩ ∧
    ([64, 20, 16, 236, 17, 236, 17, 236, 17, 236, 17, 236, 17] : List Nat).length
      = 13 := by
  refine ⟨by rfl, ?_⟩
  have h := encoder_output_exact [65]
    ⟨21, 1, [64, 20, 16, 236, 17, 236, 17, 236, 17, 236, 17, 236, 17]⟩ (by rfl)
  exact h.2.1 rfl

/-- Claim C2 (code bug): the claim says every message longer than the
version-2 capacity fails with `MessageTooLong`, in particular every message
longer than 151 bytes.  For lengths of at least 151 no capacity-table entry
exceeds the length, so `version` keeps its initial value 0, which passes the
`version > 2` check without the `MessageTooLong` exit; the code then panics at
`ec_table[version - 1]` (the `usize` subtraction wraps around).  Evaluated here
at a message of 152 bytes `97`. -/
theorem qrNew_overlong_panics :
    qrNew (List.replicate 152 97) = .panic ∧
    selectVersion 152 = 0 ∧
    qrNew (List.replicate 150 97) = .tooLong := by
  exact ⟨rfl, rfl, rfl⟩

end QR

namespace QR

/-! ## Properties of the cell relation -/

theorem cellRel_refl (a : Nat) : CellRel a a := Or.inl rfl

theorem rowRel_refl (r : List Nat) : RowRel r r :=
  List.forall₂_same.2 fun x _ => cellRel_refl x

theorem gridRel_refl (g : Grid) : GridRel g g :=
  List.forall₂_same.2 fun r _ => rowRel_refl r

theorem forall₂_get? {α : Type} {R : α → α → Prop} {l₁ l₂ : List α}
    (h : List.Forall₂ R l₁ l₂) : ∀ i, OptRel R (l₁.get? i) (l₂.get? i) := by
  induction h with
  | nil => intro i; exact trivial
  | cons ha hl ih =>
      intro i
      cases i with
      | zero => exact ha
      | succ n => exact ih n

theorem forall₂_set {α : Type} {R : α → α → Prop} {l₁ l₂ : List α}
    (h : List.Forall₂ R l₁ l₂) : ∀ (i : Nat) {a b : α}, R a b →
      List.Forall₂ R (l₁.set i a) (l₂.set i b) := by
  induction h with
  | nil => intro i a b _; exact List.Forall₂.nil
  | cons ha hl ih =>
      intro i a b hab
      cases i with
      | zero => exact List.Forall₂.cons hab hl
      | succ n => exact List.Forall₂.cons ha (ih n hab)

theorem forall₂_map_rel {α : Type} {R S : α → α → Prop} {f g : α → α}
    (hfg : ∀ a b, R a b → S (f a) (g b)) :
    ∀ {l₁ l₂ : List α}, List.Forall₂ R l₁ l₂ →
      List.Forall₂ S (l₁.map f) (l₂.map g) := by
  intro l₁ l₂ h
  induction h with
  | nil => exact List.Forall₂.nil
  | cons ha hl ih => exact List.Forall₂.cons (hfg _ _ ha) ih

theorem optRel_map {α : Type} {R S : α → α → Prop} {f g : α → α}
    (hfg : ∀ a b, R a b → S (f a) (g b)) :
    ∀ {o₁ o₂ : Option α}, OptRel R o₁ o₂ → OptRel S (o₁.map f) (o₂.map g) := by
  intro o₁ o₂ h
  cases o₁ <;> cases o₂
  · exact trivial
  · exact h.elim
  · exact h.elim
  · exact hfg _ _ h

theorem optRel_isSome {α : Type} {R : α → α → Prop} {o₁ o₂ : Option α}
    (h : OptRel R o₁ o₂) (h₂ : o₂.isSome = true) : ∃ a, o₁ = some a := by
  cases o₁ <;> cases o₂
  · cases h₂
  · exact h.elim
  · exact ⟨_, rfl⟩
  · exact ⟨_, rfl⟩

theorem readCell_rel {g₁ g₂ : Grid} (h : GridRel g₁ g₂) (y x : Nat) :
    OptRel CellRel (readCell g₁ y x) (readCell g₂ y x) := by
  have hrow := forall₂_get? h y
  unfold readCell
  cases h₁ : g₁.get? y with
  | none =>
      cases h₂ : g₂.get? y with
      | none => exact trivial
      | some r₂ => rw [h₁, h₂] at hrow; exact hrow.elim
  | some r₁ =>
      cases h₂ : g₂.get? y with
      | none => rw [h₁, h₂] at hrow; exact hrow.elim
      | some r₂ =>
          rw [h₁, h₂] at hrow
          exact forall₂_get? hrow x

theorem readCellD_rel {g₁ g₂ : Grid} (h : GridRel g₁ g₂) (y x : Nat) :
    CellRel (readCellD g₁ y x) (readCellD g₂ y x) := by
  have hr := readCell_rel h y x
  unfold readCellD
  cases h₁ : readCell g₁ y x with
  | none =>
      cases h₂ : readCell g₂ y x with
      | none => exact cellRel_refl 0
      | some v => rw [h₁, h₂] at hr; exact hr.elim
  | some v₁ =>
      cases h₂ : readCell g₂ y x with
      | none => rw [h₁, h₂] at hr; exact hr.elim
      | some v₂ => rw [h₁, h₂] at hr; exact hr

theorem writeCell_rel {g₁ g₂ : Grid} (h : GridRel g₁ g₂) (y x : Nat) {a b : Nat}
    (hab : CellRel a b) : GridRel (writeCell g₁ y x a) (writeCell g₂ y x b) := by
  have hrow := forall₂_get? h y
  unfold writeCell
  cases h₁ : g₁.get? y with
  | none =>
      cases h₂ : g₂.get? y with
      | none => exact h
      | some r₂ => rw [h₁, h₂] at hrow; exact hrow.elim
  | some r₁ =>
      cases h₂ : g₂.get? y with
      | none => rw [h₁, h₂] at hrow; exact hrow.elim
      | some r₂ =>
          rw [h₁, h₂] at hrow
          exact forall₂_set h y (forall₂_set hrow x hab)

theorem getBit_lt_two (o v : Nat) : getBit o v < 2 := by
  unfold getBit
  rw [Nat.and_one_is_mod]
  exact Nat.mod_lt _ (by norm_num)

theorem leftoverPass_rel {g₁ g₂ : Grid} (h : GridRel g₁ g₂) :
    GridRel (leftoverPass g₁) (leftoverPass g₂) := by
  refine forall₂_map_rel (fun r₁ r₂ hr => ?_) h
  refine forall₂_map_rel (fun a b hab => ?_) hr
  rcases hab with rfl | ⟨h1, h2⟩
  · exact cellRel_refl _
  · have ha : ¬(a = 3) := by omega
    have hb : ¬(b = 3) := by omega
    rw [if_neg ha, if_neg hb]
    exact Or.inr ⟨h1, h2⟩

/-- The zig-zag loop preserves the cell relation: the visited path and the
consumed bit count depend only on the pattern of uninitialised cells, not on
the payload bits, and every written bit is a final module value. -/
theorem zigzagLoop_rel (size : Nat) (p₁ p₂ : List Nat) (tb : Nat) :
    ∀ (fuel : Nat) {g₁ g₂ : Grid} (bi : Nat) (x y xs ys : Int),
      GridRel g₁ g₂ →
      OptRel GridRel (zigzagLoop size p₁ tb fuel g₁ bi x y xs ys)
        (zigzagLoop size p₂ tb fuel g₂ bi x y xs ys) := by
  intro fuel
  induction fuel with
  | zero => intro g₁ g₂ bi x y xs ys _; exact trivial
  | succ n ih =>
      intro g₁ g₂ bi x y xs ys h
      simp only [zigzagLoop]
      by_cases hbi : bi < tb
      · rw [if_pos hbi, if_pos hbi]
        have hread : OptRel CellRel (readCellI g₁ y x) (readCellI g₂ y x) := by
          unfold readCellI
          by_cases hneg : y < 0 ∨ x < 0
          · rw [if_pos hneg, if_pos hneg]; exact trivial
          · rw [if_neg hneg, if_neg hneg]; exact readCell_rel h _ _
        cases h₁ : readCellI g₁ y x with
        | none =>
            cases h₂ : readCellI g₂ y x with
            | none => exact trivial
            | some v₂ => rw [h₁, h₂] at hread; exact hread.elim
        | some v₁ =>
            cases h₂ : readCellI g₂ y x with
            | none => rw [h₁, h₂] at hread; exact hread.elim
            | some v₂ =>
                rw [h₁, h₂] at hread
                dsimp only
                by_cases h3 : v₁ = 3
                · have h3b : v₂ = 3 := by
                    rcases hread with he | ⟨ha, hb⟩ <;> omega
                  rw [if_pos h3, if_pos h3b, if_pos h3, if_pos h3b]
                  exact ih _ _ _ _ _
                    (writeCell_rel h _ _
                      (Or.inr ⟨getBit_lt_two _ _, getBit_lt_two _ _⟩))
                · have h3b : ¬(v₂ = 3) := by
                    rcases hread with he | ⟨ha, hb⟩ <;> omega
                  rw [if_neg h3, if_neg h3b, if_neg h3, if_neg h3b]
                  exact ih _ _ _ _ _ h
      · rw [if_neg hbi, if_neg hbi]
        exact h

theorem placeModules_rel (version size fuel : Nat) {p₁ p₂ : List Nat}
    (hlen : p₁.length = p₂.length) :
    OptRel GridRel (placeModules version size fuel p₁)
      (placeModules version size fuel p₂) := by
  unfold placeModules
  rw [hlen]
  exact optRel_map (fun a b hab => leftoverPass_rel hab)
    (zigzagLoop_rel size p₁ p₂ (p₂.length * 8) fuel 0 _ _ _ _ (gridRel_refl _))

end QR

namespace QR

/-- Claim C6 (confirmed): for every accepted message (any `msg` with
`qrNew msg = ok q`) and any parity block of the length the external
Reed-Solomon codec returns, the zig-zag placement loop of `place_modules`
terminates with all `payload_length * 8` bits consumed and with every grid
access in bounds: the run returns a grid instead of the `none` that models an
out-of-bounds access (or exhausted fuel).  The proof transfers, through
`placeModules_rel`, the evaluated run on an all-zero payload of the same
length (26 bytes for version 1, 44 for version 2). -/
theorem zigzag_terminates (msg : List Nat) (q : QRState) (ecc : List Nat)
    (hok : qrNew msg = .ok q) (hecc : ecc.length = eccCodewords q.version) :
    ∃ fuel g, placeModules q.version q.size fuel (q.data ++ ecc) = some g := by
  obtain ⟨hv, hsize, -⟩ := qrNew_ok_spec hok
  obtain ⟨-, -, hdlen⟩ := qrNew_data_length hok
  refine ⟨2500, ?_⟩
  rcases hv with ⟨h1, -⟩ | ⟨h1, -⟩
  · have hs21 : q.size = 21 := by rw [hsize, h1]
    have hplen : (q.data ++ ecc).length = (List.replicate 26 0 : List Nat).length := by
      rw [List.length_append, hdlen, hecc, h1]
      rfl
    have hrel := placeModules_rel 1 21 2500 hplen
    have hz : (placeModules 1 21 2500 (List.replicate 26 0)).isSome = true := by
      decide!
    obtain ⟨g, hg⟩ := optRel_isSome hrel hz
    rw [hs21, h1]
    exact ⟨g, hg⟩
  · have hs25 : q.size = 25 := by rw [hsize, h1]
    have hplen : (q.data ++ ecc).length = (List.replicate 44 0 : List Nat).length := by
      rw [List.length_append, hdlen, hecc, h1]
      rfl
    have hrel := placeModules_rel 2 25 2500 hplen
    have hz : (placeModules 2 25 2500 (List.replicate 44 0)).isSome = true := by
      decide!
    obtain ⟨g, hg⟩ := optRel_isSome hrel hz
    rw [hs25, h1]
    exact ⟨g, hg⟩

/-- Witness for C6: the message "A" at version 1 with a zero parity block. -/
theorem zigzag_terminates_witness :
    ∃ fuel g,
      placeModules 1 21 fuel
        ([64, 20, 16, 236, 17, 236, 17, 236, 17, 236, 17, 236, 17] ++
          List.replicate 13 0) = some g :=
  zigzag_terminates [65]
    ⟨21, 1, [64, 20, 16, 236, 17, 236, 17, 236, 17, 236, 17, 236, 17]⟩
    (List.replicate 13 0) (by rfl) (by rfl)

theorem leftoverPass_no3 {g : Grid} {y x c : Nat}
    (h : readCell (leftoverPass g) y x = some c) : c ≠ 3 := by
  unfold leftoverPass readCell at h
  rw [List.get?_map] at h
  cases hr : g.get? y with
  | none => rw [hr] at h; cases h
  | some row =>
      rw [hr] at h
      rw [Option.map_some', Option.some_bind] at h
      rw [List.get?_map] at h
      cases hv : row.get? x with
      | none => rw [hv] at h; cases h
      | some v =>
          rw [hv] at h
          dsimp only [Option.map_some'] at h
          cases h
          by_cases h3 : v = 3
          · rw [if_pos h3]; omega
          · rw [if_neg h3]; exact h3

/-- Claim C7 (confirmed): whenever `place_modules` completes (which claim C6
establishes for every accepted message), no cell of the resulting grid is
still uninitialised (3): every cell visited while uninitialised received a
payload bit — most-significant bit first, `bit = 7 - bit_index % 8` in
`zigzagLoop` — and the leftover pass forces every remaining 3 to 0
(`DataLight`). -/
theorem no_unwritten_after_placement (version size fuel : Nat)
    (payload : List Nat) (y x c : Nat)
    (h : (placeModules version size fuel payload).bind
      (fun g => readCell g y x) = some c) :
    c ≠ 3 := by
  cases hpm : placeModules version size fuel payload with
  | none => rw [hpm] at h; cases h
  | some g =>
      rw [hpm] at h
      rw [Option.some_bind] at h
      unfold placeModules at hpm
      obtain ⟨g0, -, hg0⟩ := Option.map_eq_some'.mp hpm
      rw [← hg0] at h
      exact leftoverPass_no3 h

/-- Witness for C7: the top-left cell of the version-1 grid built from the
all-zero payload holds the finder value 11 (dark), not 3. -/
theorem no_unwritten_after_placement_witness : (11 : Nat) ≠ 3 :=
  no_unwritten_after_placement 1 21 2500 (List.replicate 26 0) 0 0 11 (by decide!)

theorem mapRowIdx_get? (f : Nat → Nat → Nat) :
    ∀ (r : List Nat) (x0 k : Nat),
      (mapRowIdx f x0 r).get? k = (r.get? k).map (f (x0 + k)) := by
  intro r
  induction r with
  | nil => intro x0 k; rfl
  | cons v t ih =>
      intro x0 k
      cases k with
      | zero => rfl
      | succ n =>
          show (mapRowIdx f (x0 + 1) t).get? n = (t.get? n).map (f (x0 + (n + 1)))
          rw [ih (x0 + 1) n]
          have : x0 + 1 + n = x0 + (n + 1) := by omega
          rw [this]

theorem mapGridIdx_get? (f : Nat → Nat → Nat → Nat) :
    ∀ (g : Grid) (y0 k : Nat),
      (mapGridIdx f y0 g).get? k = (g.get? k).map (mapRowIdx (f (y0 + k)) 0) := by
  intro g
  induction g with
  | nil => intro y0 k; rfl
  | cons row t ih =>
      intro y0 k
      cases k with
      | zero => rfl
      | succ n =>
          show (mapGridIdx f (y0 + 1) t).get? n = (t.get? n).map (mapRowIdx (f (y0 + (n + 1))) 0)
          rw [ih (y0 + 1) n]
          have : y0 + 1 + n = y0 + (n + 1) := by omega
          rw [this]

theorem readCell_mapGridIdx (f : Nat → Nat → Nat → Nat) (g : Grid) (y x : Nat) :
    readCell (mapGridIdx f 0 g) y x = (readCell g y x).map (fun v => f y x v) := by
  unfold readCell
  rw [mapGridIdx_get? f g 0 y]
  cases hr : g.get? y with
  | none => rfl
  | some row =>
      rw [Option.map_some', Option.some_bind, Option.some_bind]
      rw [mapRowIdx_get?]
      cases hv : row.get? x with
      | none => rfl
      | some v =>
          dsimp only [Option.map_some']
          rw [Nat.zero_add, Nat.zero_add]

/-- Claim C8 (confirmed): for every mask candidate `m < 8`, a cell holding a
reserved sentinel (10 `ReservedDark`... value 11, `ReservedLight` value 10, or
`FormatReserved` value 2) is never flipped by the mask application — `QR::flip`
only touches 0/1 — so after the flip-and-revert loop of `mask_and_format` the
cell holds `revertVal v` (10 becomes light 0, 11 becomes dark 1, 2 stays 2),
independently of the mask id: all eight candidates agree with the unmasked
grid on every reserved cell. -/
theorem mask_preserves_reserved (m : Nat) (g : Grid) (y x v : Nat)
    (hm : m < 8) (hv : readCell g y x = some v)
    (hres : v = 10 ∨ v = 11 ∨ v = 2) :
    readCell (maskRevertGrid m g) y x = some (revertVal v) := by
  unfold maskRevertGrid
  rw [readCell_mapGridIdx, hv]
  dsimp only [Option.map_some']
  have hflip : flipVal v = v := by
    rcases hres with h | h | h <;> rw [h] <;> rfl
  have : (if maskPred m x y = true then flipVal v else v) = v := by
    rw [hflip]
    exact ite_self v
  rw [maskRevertCell, this]

/-- Witness for C8: a one-cell grid holding `ReservedLight` (10) under mask 0
renders as light (0). -/
theorem mask_preserves_reserved_witness :
    readCell (maskRevertGrid 0 [[10]]) 0 0 = some (revertVal 10) :=
  mask_preserves_reserved 0 [[10]] 0 0 10 (by omega) (by rfl) (Or.inl rfl)

end QR

namespace QR

/-- Claim C5 (confirmed): after the separator step of the reserved-pattern
placer has run (the `sepFormatLoop` pass following finder placement), every
cell that was uninitialised (3) after finder placement and is
8-connected-adjacent (bounds-checked at the edges) to a dark finder cell (11)
has been marked reserved light (10) — for both supported grid sizes.  The
loop itself only inspects the four diagonal neighbours of each dark cell, but
since the outer ring of every finder pattern is a full dark square, the
diagonal sweep reaches each 8-neighbour of the dark cells all the same. -/
theorem separator_marks_all_neighbors :
    (∀ y : Nat, y < 21 → ∀ x : Nat, x < 21 →
      readCellD (placeFinders 21 (gridFilled 3 21)) y x = 3 →
      (∃ d ∈ neighborOffsets,
        0 ≤ (y : Int) + d.1 ∧ (y : Int) + d.1 < 21 ∧
        0 ≤ (x : Int) + d.2 ∧ (x : Int) + d.2 < 21 ∧
        readCellD (placeFinders 21 (gridFilled 3 21))
          ((y : Int) + d.1).toNat ((x : Int) + d.2).toNat = 11) →
      readCellD (sepFormatLoop 21 (placeFinders 21 (gridFilled 3 21))) y x = 10) ∧
    (∀ y : Nat, y < 25 → ∀ x : Nat, x < 25 →
      readCellD (placeFinders 25 (gridFilled 3 25)) y x = 3 →
      (∃ d ∈ neighborOffsets,
        0 ≤ (y : Int) + d.1 ∧ (y : Int) + d.1 < 25 ∧
        0 ≤ (x : Int) + d.2 ∧ (x : Int) + d.2 < 25 ∧
        readCellD (placeFinders 25 (gridFilled 3 25))
          ((y : Int) + d.1).toNat ((x : Int) + d.2).toNat = 11) →
      readCellD (sepFormatLoop 25 (placeFinders 25 (gridFilled 3 25))) y x = 10) := by
  constructor
  · decide!
  · decide!

/-- Witness for C5: cell (7, 7) of the version-1 grid is uninitialised after
finder placement, diagonally adjacent to the dark finder corner (6, 6), and
ends up reserved light. -/
theorem separator_marks_all_neighbors_witness :
    readCellD (sepFormatLoop 21 (placeFinders 21 (gridFilled 3 21))) 7 7 = 10 :=
  separator_marks_all_neighbors.1 7 (by omega) 7 (by omega) (by decide!)
    ⟨(-1, -1), by decide, by decide, by decide, by decide, by decide, by decide!⟩

end QR

namespace QR

theorem enumFrom_pairwise_fst {α : Type} : ∀ (l : List α) (n : Nat),
    (l.enumFrom n).Pairwise (fun p q => p.1 < q.1) := by
  intro l
  induction l with
  | nil => intro n; exact List.Pairwise.nil
  | cons a t ih =>
      intro n
      refine List.Pairwise.cons ?_ (ih (n + 1))
      intro p hp
      rcases p with ⟨i, v⟩
      have := (List.mk_mem_enumFrom_iff_le_and_getElem?_sub.mp hp).1
      show n < i
      omega

theorem enumFrom_fst_pos {α : Type} {t : List α} {p : Nat × α}
    (hp : p ∈ t.enumFrom 1) : 1 ≤ p.1 := by
  rcases p with ⟨i, v⟩
  exact (List.mk_mem_enumFrom_iff_le_and_getElem?_sub.mp hp).1

theorem foldl_optStep_some :
    ∀ (l : List (Nat × Int)) (q : Nat × Int),
      l.foldl (fun acc p => match acc with
        | none => some p
        | some q => if p.2 < q.2 then some p else some q) (some q) =
      some (l.foldl (fun q p => if p.2 < q.2 then p else q) q) := by
  intro l
  induction l with
  | nil => intro q; rfl
  | cons a t ih =>
      intro q
      simp only [List.foldl_cons]
      rw [← apply_ite some]
      exact ih _

/-- Invariant of the running-minimum fold used by `evaluate_masks`: the result
is the first pair attaining the minimal penalty, provided the pair indices
strictly increase along the list. -/
theorem foldlMin_spec :
    ∀ (l : List (Nat × Int)) (q r : Nat × Int),
      r = l.foldl (fun q p => if p.2 < q.2 then p else q) q →
      (∀ p ∈ l, q.1 < p.1) → l.Pairwise (fun a b => a.1 < b.1) →
      (r = q ∨ r ∈ l) ∧ r.2 ≤ q.2 ∧ (∀ p ∈ l, r.2 ≤ p.2) ∧
      (q.2 = r.2 → r.1 ≤ q.1) ∧ (∀ p ∈ l, p.2 = r.2 → r.1 ≤ p.1) := by
  intro l
  induction l with
  | nil =>
      intro q r hr _ _
      rw [hr]
      exact ⟨Or.inl rfl, le_refl _, by simp, fun _ => le_refl _, by simp⟩
  | cons a t ih =>
      intro q r hr hq hpw
      have hqa : q.1 < a.1 := hq a (List.mem_cons_self a t)
      have hta : ∀ p ∈ t, a.1 < p.1 := (List.pairwise_cons.mp hpw).1
      have hpw2 : t.Pairwise (fun a b => a.1 < b.1) := (List.pairwise_cons.mp hpw).2
      simp only [List.foldl_cons] at hr
      by_cases hlt : a.2 < q.2
      · rw [if_pos hlt] at hr
        obtain ⟨hmem, hle, hall, htie_a, htie_t⟩ := ih a r hr hta hpw2
        refine ⟨?_, ?_, ?_, ?_, ?_⟩
        · rcases hmem with he | hm
          · exact Or.inr (he ▸ List.mem_cons_self a t)
          · exact Or.inr (List.mem_cons_of_mem a hm)
        · omega
        · intro p hp
          rcases List.mem_cons.mp hp with rfl | hm
          · exact hle
          · exact hall p hm
        · intro hq2; omega
        · intro p hp hp2
          rcases List.mem_cons.mp hp with rfl | hm
          · exact htie_a hp2
          · exact htie_t p hm hp2
      · rw [if_neg hlt] at hr
        obtain ⟨hmem, hle, hall, htie_q, htie_t⟩ :=
          ih q r hr (fun p hp => hq p (List.mem_cons_of_mem a hp)) hpw2
        refine ⟨?_, hle, ?_, htie_q, ?_⟩
        · rcases hmem with he | hm
          · exact Or.inl he
          · exact Or.inr (List.mem_cons_of_mem a hm)
        · intro p hp
          rcases List.mem_cons.mp hp with rfl | hm
          · omega
          · exact hall p hm
        · intro p hp hp2
          rcases List.mem_cons.mp hp with rfl | hm
          · have h2 : q.2 = r.2 := by omega
            have := htie_q h2
            omega
          · exact htie_t p hm hp2

end QR

namespace QR

/-- The selection fold of `evaluate_masks` returns the index of the first
minimal entry of a nonempty penalty list. -/
theorem bestCodeIndex_spec (ps : List Int) (hne : ps ≠ []) :
    ∃ i, bestCodeIndex ps = some i ∧ i < ps.length ∧
      (∀ j, j < ps.length → ps.getD i 0 ≤ ps.getD j 0) ∧
      (∀ j, j < ps.length → ps.getD j 0 = ps.getD i 0 → i ≤ j) := by
  cases hps : ps with
  | nil => exact absurd hps hne
  | cons a t =>
      subst hps
      have hget : ∀ j, j < (a :: t).length → (a :: t).get? j = some ((a :: t).getD j 0) := by
        intro j hj
        cases hq : (a :: t).get? j with
        | none =>
            have := List.get?_eq_none.mp hq
            omega
        | some v => rw [List.getD_eq_get?, hq]; rfl
      have hfold : minByFirst (a :: t) =
          some ((t.enumFrom 1).foldl (fun q p => if p.2 < q.2 then p else q) (0, a)) := by
        unfold minByFirst
        exact foldl_optStep_some _ _
      obtain ⟨hmem, hle, hall, htie_q, htie_t⟩ :=
        foldlMin_spec (t.enumFrom 1) (0, a)
          ((t.enumFrom 1).foldl (fun q p => if p.2 < q.2 then p else q) (0, a)) rfl
          (fun p hp => Nat.lt_of_lt_of_le Nat.zero_lt_one (enumFrom_fst_pos hp))
          (enumFrom_pairwise_fst t 1)
      set r := (t.enumFrom 1).foldl (fun q p => if p.2 < q.2 then p else q) (0, a) with hrdef
      have hgetr : (a :: t).get? r.1 = some r.2 := by
        rcases hmem with he | hm
        · rw [he]; rfl
        · have : r ∈ (a :: t).enum := List.mem_cons_of_mem (0, a) hm
          exact List.mem_enum_iff_get?.mp this
      have hilt : r.1 < (a :: t).length := by
        cases hq : (a :: t).get? r.1 with
        | none => rw [hq] at hgetr; cases hgetr
        | some v =>
            by_contra hc
            have := List.get?_eq_none.mpr (by omega : (a :: t).length ≤ r.1)
            rw [this] at hgetr
            cases hgetr
      have hgdr : (a :: t).getD r.1 0 = r.2 := by
        rw [List.getD_eq_get?, hgetr]; rfl
      refine ⟨r.1, ?_, hilt, ?_, ?_⟩
      · unfold bestCodeIndex
        rw [hfold]
        rfl
      · intro j hj
        have hjget := hget j hj
        have hjmem : (j, (a :: t).getD j 0) ∈ (a :: t).enum :=
          List.mem_enum_iff_get?.mpr hjget
        rw [hgdr]
        rcases List.mem_cons.mp hjmem with he | hm
        · have hj0 : j = 0 ∧ (a :: t).getD j 0 = a := by
            constructor
            · exact congrArg Prod.fst he
            · exact congrArg Prod.snd he
          rw [hj0.2]
          exact hle
        · exact hall _ hm
      · intro j hj htie
        have hjget := hget j hj
        have hjmem : (j, (a :: t).getD j 0) ∈ (a :: t).enum :=
          List.mem_enum_iff_get?.mpr hjget
        rw [hgdr] at htie
        rcases List.mem_cons.mp hjmem with he | hm
        · have hj0 : j = 0 := congrArg Prod.fst he
          have hva : (a :: t).getD j 0 = a := congrArg Prod.snd he
          have : r.1 ≤ 0 := htie_q (by rw [← hva, htie])
          omega
        · have := htie_t _ hm htie
          omega

/-- Claim C9 (confirmed): the selection step of `evaluate_masks`
(`penalties.iter().enumerate().min_by(...)`, qr.rs lines 504-513) applied to
the eight penalty totals returns an index `i < 8` whose penalty is minimal
among all eight candidates, and on ties returns the lowest such mask id,
because Rust's `min_by` keeps the earlier element when the comparison is not
`Greater`. -/
theorem mask_selection_first_min (ps : List Int) (hlen : ps.length = 8) :
    ∃ i, bestCodeIndex ps = some i ∧ i < 8 ∧
      (∀ j, j < 8 → ps.getD i 0 ≤ ps.getD j 0) ∧
      (∀ j, j < 8 → ps.getD j 0 = ps.getD i 0 → i ≤ j) := by
  have hne : ps ≠ [] := by
    intro h
    rw [h] at hlen
    cases hlen
  obtain ⟨i, h1, h2, h3, h4⟩ := bestCodeIndex_spec ps hne
  rw [hlen] at h2 h3 h4
  exact ⟨i, h1, h2, h3, h4⟩

/-- Witness for C9: on the penalty list `[5, 3, 3, 7, 4, 9, 3, 8]` the
selection returns mask 1, the first of the three minima. -/
theorem mask_selection_first_min_witness :
    ∃ i, bestCodeIndex [5, 3, 3, 7, 4, 9, 3, 8] = some i ∧ i < 8 ∧
      (∀ j, j < 8 → ([5, 3, 3, 7, 4, 9, 3, 8] : List Int).getD i 0 ≤
        ([5, 3, 3, 7, 4, 9, 3, 8] : List Int).getD j 0) ∧
      (∀ j, j < 8 → ([5, 3, 3, 7, 4, 9, 3, 8] : List Int).getD j 0 =
        ([5, 3, 3, 7, 4, 9, 3, 8] : List Int).getD i 0 → i ≤ j) :=
  mask_selection_first_min [5, 3, 3, 7, 4, 9, 3, 8] (by rfl)

end QR

namespace QR

theorem maskRevertCell_lt_two (m x y v : Nat) (hv : v < 2) :
    maskRevertCell m x y v < 2 := by
  unfold maskRevertCell revertVal flipVal
  interval_cases v <;> cases hp : maskPred m x y <;> simp [hp]

theorem maskRevertCell_rel (m x y : Nat) {a b : Nat} (h : CellRel a b) :
    CellRel (maskRevertCell m x y a) (maskRevertCell m x y b) := by
  rcases h with rfl | ⟨ha, hb⟩
  · exact cellRel_refl _
  · exact Or.inr ⟨maskRevertCell_lt_two m x y a ha, maskRevertCell_lt_two m x y b hb⟩

theorem mapRowIdx_rel {f : Nat → Nat → Nat}
    (hf : ∀ x a b, CellRel a b → CellRel (f x a) (f x b)) :
    ∀ {r₁ r₂ : List Nat} (x0 : Nat), RowRel r₁ r₂ →
      RowRel (mapRowIdx f x0 r₁) (mapRowIdx f x0 r₂) := by
  intro r₁ r₂ x0 h
  induction h generalizing x0 with
  | nil => exact List.Forall₂.nil
  | cons ha hl ih => exact List.Forall₂.cons (hf _ _ _ ha) (ih _)

theorem mapGridIdx_rel {f : Nat → Nat → Nat → Nat}
    (hf : ∀ y x a b, CellRel a b → CellRel (f y x a) (f y x b)) :
    ∀ {g₁ g₂ : Grid} (y0 : Nat), GridRel g₁ g₂ →
      GridRel (mapGridIdx f y0 g₁) (mapGridIdx f y0 g₂) := by
  intro g₁ g₂ y0 h
  induction h generalizing y0 with
  | nil => exact List.Forall₂.nil
  | cons ha hl ih =>
      exact List.Forall₂.cons (mapRowIdx_rel (fun x a b => hf _ x a b) 0 ha) (ih _)

theorem maskRevertGrid_rel (m : Nat) {g₁ g₂ : Grid} (h : GridRel g₁ g₂) :
    GridRel (maskRevertGrid m g₁) (maskRevertGrid m g₂) := by
  unfold maskRevertGrid
  exact mapGridIdx_rel (fun y x a b hab => maskRevertCell_rel m x y hab) 0 h

theorem foldl_pair_rel {step : Grid × Nat → Nat → Grid × Nat}
    (hstep : ∀ (p₁ p₂ : Grid × Nat) (x : Nat), GridRel p₁.1 p₂.1 → p₁.2 = p₂.2 →
      GridRel (step p₁ x).1 (step p₂ x).1 ∧ (step p₁ x).2 = (step p₂ x).2) :
    ∀ (xs : List Nat) (p₁ p₂ : Grid × Nat), GridRel p₁.1 p₂.1 → p₁.2 = p₂.2 →
      GridRel (xs.foldl step p₁).1 (xs.foldl step p₂).1 ∧
      (xs.foldl step p₁).2 = (xs.foldl step p₂).2 := by
  intro xs
  induction xs with
  | nil => intro p₁ p₂ hg hc; exact ⟨hg, hc⟩
  | cons a t ih =>
      intro p₁ p₂ hg hc
      have hs := hstep p₁ p₂ a hg hc
      exact ih _ _ hs.1 hs.2

theorem horizontalPass_rel (size fs : Nat) {g₁ g₂ : Grid} (h : GridRel g₁ g₂) :
    GridRel (horizontalPass size fs g₁) (horizontalPass size fs g₂) := by
  unfold horizontalPass
  refine (foldl_pair_rel ?_ (List.range size) (g₁, 0) (g₂, 0) h rfl).1
  intro p₁ p₂ x hg hc
  have hcell := readCellD_rel hg 8 x
  by_cases h2 : readCellD p₁.1 8 x = 2
  · have h2b : readCellD p₂.1 8 x = 2 := by rcases hcell with he | ⟨ha, hb⟩ <;> omega
    rw [if_pos h2, if_pos h2b, hc]
    exact ⟨writeCell_rel hg _ _ (cellRel_refl _), rfl⟩
  · have h2b : ¬(readCellD p₂.1 8 x = 2) := by rcases hcell with he | ⟨ha, hb⟩ <;> omega
    rw [if_neg h2, if_neg h2b]
    exact ⟨hg, hc⟩

theorem verticalPass_rel (size fs : Nat) {g₁ g₂ : Grid} (h : GridRel g₁ g₂) :
    GridRel (verticalPass size fs g₁) (verticalPass size fs g₂) := by
  unfold verticalPass
  refine (foldl_pair_rel ?_ (List.range size) (g₁, 0) (g₂, 0) h rfl).1
  intro p₁ p₂ y hg hc
  have hcell := readCellD_rel hg y 8
  by_cases h2 : readCellD p₁.1 y 8 = 2
  · have h2b : readCellD p₂.1 y 8 = 2 := by rcases hcell with he | ⟨ha, hb⟩ <;> omega
    rw [if_pos h2, if_pos h2b, hc]
    exact ⟨writeCell_rel hg _ _ (cellRel_refl _), rfl⟩
  · have h2b : ¬(readCellD p₂.1 y 8 = 2) := by rcases hcell with he | ⟨ha, hb⟩ <;> omega
    rw [if_neg h2, if_neg h2b]
    exact ⟨hg, hc⟩

theorem generateFormatPattern_rel (size i : Nat) {g₁ g₂ : Grid}
    (h : GridRel g₁ g₂) :
    GridRel (generateFormatPattern size i g₁) (generateFormatPattern size i g₂) := by
  unfold generateFormatPattern
  exact verticalPass_rel _ _ (horizontalPass_rel _ _ h)

theorem zigzagLoop_mono (size : Nat) (p : List Nat) (tb : Nat) :
    ∀ (fuel : Nat) {g : Grid} {bi : Nat} {x y xs ys : Int} {gout : Grid},
      zigzagLoop size p tb fuel g bi x y xs ys = some gout →
      zigzagLoop size p tb (fuel + 1) g bi x y xs ys = some gout := by
  intro fuel
  induction fuel with
  | zero => intro g bi x y xs ys gout h; cases h
  | succ n ih =>
      intro g bi x y xs ys gout h
      rw [zigzagLoop] at h
      rw [zigzagLoop]
      by_cases hbi : bi < tb
      · rw [if_pos hbi] at h ⊢
        cases hr : readCellI g y x with
        | none => rw [hr] at h; dsimp only at h; cases h
        | some v =>
            rw [hr] at h
            dsimp only at h ⊢
            exact ih h
      · rw [if_neg hbi] at h ⊢
        exact h

theorem zigzagLoop_fuel_le (size : Nat) (p : List Nat) (tb : Nat)
    {f₁ f₂ : Nat} (hle : f₁ ≤ f₂) {g : Grid} {bi : Nat} {x y xs ys : Int}
    {gout : Grid} (h : zigzagLoop size p tb f₁ g bi x y xs ys = some gout) :
    zigzagLoop size p tb f₂ g bi x y xs ys = some gout := by
  induction hle with
  | refl => exact h
  | step h2 ih => exact zigzagLoop_mono size p tb _ ih

theorem placeModules_fuel_le {version size : Nat} {p : List Nat} {f₁ f₂ : Nat}
    (hle : f₁ ≤ f₂) {gout : Grid}
    (h : placeModules version size f₁ p = some gout) :
    placeModules version size f₂ p = some gout := by
  unfold placeModules at h ⊢
  obtain ⟨z, hz, hlz⟩ := Option.map_eq_some'.mp h
  rw [zigzagLoop_fuel_le size p _ hle hz]
  rw [Option.map_some', hlz]

theorem gridAll_readCell {p : Nat → Bool} {g : Grid}
    (h : (g.all fun row => row.all p) = true) {y x c : Nat}
    (hc : readCell g y x = some c) : p c = true := by
  unfold readCell at hc
  cases hr : g.get? y with
  | none => rw [hr] at hc; cases hc
  | some row =>
      rw [hr, Option.some_bind] at hc
      have h1 := List.all_eq_true.mp h row (List.get?_mem hr)
      exact List.all_eq_true.mp h1 c (List.get?_mem hc)

end QR

namespace QR

/-- Concrete evaluation: all eight candidates of the version-1 grid built from
the all-zero 26-byte payload hold only final module values. -/
theorem candidatesOk_v1 : candidatesOk 1 21 2500 (List.replicate 26 0) = true := by
  decide!

/-- Concrete evaluation: all eight candidates of the version-2 grid built from
the all-zero 44-byte payload hold only final module values. -/
theorem candidatesOk_v2 : candidatesOk 2 25 2500 (List.replicate 44 0) = true := by
  decide!

/-- Claim C10 (confirmed): for every accepted message, every parity block of
the codec-returned length, and every mask candidate `m < 8` — in particular
the selected one — every cell readable from the masked-and-format-overlaid
grid holds exactly 0 or 1: no uninitialised (3), format-reservation (2) or
reserved-sentinel (10/11) value survives, so the renderer's per-pixel
computation `(1 - cell) * 255` never underflows. -/
theorem final_grid_binary (msg : List Nat) (q : QRState) (ecc : List Nat)
    (hok : qrNew msg = .ok q) (hecc : ecc.length = eccCodewords q.version)
    (m fuel : Nat) (hm : m < 8) (y x c : Nat)
    (hc : (placeModules q.version q.size fuel (q.data ++ ecc)).bind
      (fun g => readCell (generateFormatPattern q.size m (maskRevertGrid m g)) y x)
      = some c) :
    c = 0 ∨ c = 1 := by
  obtain ⟨hv, hsize, -⟩ := qrNew_ok_spec hok
  obtain ⟨-, -, hdlen⟩ := qrNew_data_length hok
  have main : ∀ (version size n : Nat) (zp : List Nat),
      candidatesOk version size 2500 zp = true →
      (q.data ++ ecc).length = zp.length →
      q.version = version → q.size = size →
      c = 0 ∨ c = 1 := by
    intro version size n zp hcand hplen hqv hqs
    rw [hqv, hqs] at hc
    cases hpm : placeModules version size fuel (q.data ++ ecc) with
    | none => rw [hpm] at hc; cases hc
    | some g =>
        rw [hpm, Option.some_bind] at hc
        have hrel := placeModules_rel version size fuel hplen
        rw [hpm] at hrel
        cases hz : placeModules version size fuel zp with
        | none => rw [hz] at hrel; exact hrel.elim
        | some g0 =>
            rw [hz] at hrel
            unfold candidatesOk at hcand
            cases hz2 : placeModules version size 2500 zp with
            | none => rw [hz2] at hcand; cases hcand
            | some G =>
                rw [hz2] at hcand
                have e1 := placeModules_fuel_le (Nat.le_max_left fuel 2500) hz
                have e2 := placeModules_fuel_le (Nat.le_max_right fuel 2500) hz2
                rw [e1] at e2
                injection e2 with e3
                rw [e3] at hrel
                have hcrel := generateFormatPattern_rel size m (maskRevertGrid_rel m hrel)
                have hread := readCell_rel hcrel y x
                rw [hc] at hread
                cases hz3 : readCell (generateFormatPattern size m (maskRevertGrid m G)) y x with
                | none => rw [hz3] at hread; exact hread.elim
                | some c2 =>
                    rw [hz3] at hread
                    have hGall := List.all_eq_true.mp hcand m (List.mem_range.mpr hm)
                    have hc2 := gridAll_readCell hGall hz3
                    have hc2lt : c2 < 2 := of_decide_eq_true hc2
                    rcases hread with he | ⟨h1, h2⟩ <;> omega
  rcases hv with ⟨h1, -⟩ | ⟨h1, -⟩
  · refine main 1 21 2500 (List.replicate 26 0) candidatesOk_v1 ?_ h1 (by rw [hsize, h1])
    rw [List.length_append, hdlen, hecc, h1]
    rfl
  · refine main 2 25 2500 (List.replicate 44 0) candidatesOk_v2 ?_ h1 (by rw [hsize, h1])
    rw [List.length_append, hdlen, hecc, h1]
    rfl

/-- Witness for C10: the message "A" with a zero parity block, mask 0,
cell (0, 0) (a dark finder module, rendered as 1). -/
theorem final_grid_binary_witness : (1 : Nat) = 0 ∨ (1 : Nat) = 1 :=
  final_grid_binary [65]
    ⟨21, 1, [64, 20, 16, 236, 17, 236, 17, 236, 17, 236, 17, 236, 17]⟩
    (List.replicate 13 0) (by rfl) (by rfl) 0 2500 (by omega) 0 0 1 (by decide!)

end QR

namespace QR

/-- Claim C3 (code bug): the claim — like the comment "Skip 7 as it's already
placed" in the code — says the vertical format pass writes bits 0 upward and
skips the duplicated bit index 7.  But the implementation checks
`vertical_bit == 7` only after the write, so bit 7 is written and bit index 8
is the one skipped.  The version-1 column 8 holds 14 cells that are still
format-reserved when the vertical pass runs (the cell (8,8) was already
filled by the horizontal pass), and they receive the bit indices
0..7, 9..14: the 8th such cell, at row 14, receives bit 7 of the format
string instead of bit 8, and the 9th, at row 15, receives bit 9.  For mask 2
(format string 0x3F31) bit 7 is 0 while bit 8 is 1, so the cell value the
code produces differs from the claimed one. -/
theorem vertical_format_pass_skips_bit8 :
    verticalBitsAux 14 0 = [0, 1, 2, 3, 4, 5, 6, 7, 9, 10, 11, 12, 13, 14] ∧
    7 ∈ verticalBitsAux 14 0 ∧ 8 ∉ verticalBitsAux 14 0 ∧
    (placeModules 1 21 2500 (List.replicate 26 0)).bind
      (fun g => readCell (generateFormatPattern 21 2 (maskRevertGrid 2 g)) 14 8)
      = some (getBit 7 0x3F31) ∧
    (placeModules 1 21 2500 (List.replicate 26 0)).bind
      (fun g => readCell (generateFormatPattern 21 2 (maskRevertGrid 2 g)) 15 8)
      = some (getBit 9 0x3F31) ∧
    getBit 7 0x3F31 = 0 ∧ getBit 8 0x3F31 = 1 := by
  refine ⟨by decide, by decide, by decide, by decide!, by decide!, by decide, by decide⟩

end QR
